import Mathlib

/-!
Verification of the durable scheduling queue and delivery worker of the
Piero-Dev-Email-sender repository.

The embedding follows the source files:
  * `Iteracion/SEGUNDA PARTE/016-comentarios al worker.py` — the queue worker:
    `is_due`, `bump_retry`, `job_sort_key` + `jobs.sort`, the main loop, and
    `save_queue` persistence.
  * `Version Final/pierodev_email_sender.py` — variant (theme) selection:
    `pick_theme_index`, `resolve_theme`, `load_templates_state`,
    `save_templates_state`.

Modelling conventions:
  * A Python `datetime` is `DT`: a naive wall-clock reading `wall` (an
    abstract count of microseconds) together with an optional UTC offset
    `off` (`none` = naive, `some o` = aware with `utcoffset` of `o`
    microseconds).  Python compares two naive datetimes by wall-clock
    value, two aware datetimes by instant (`wall - off`), and raises
    `TypeError` on a mixed pair; the partial-order embedding `pyDtLe` /
    `pyDtLt` returns `none` for the raising case.
  * `job["scheduled_for"]` is stored as a string and read through
    `parse_job_dt : str -> datetime | None`.  The embedding carries the
    parse result directly: `Job.scheduled_for : Option DT`, `none`
    standing for an unparseable or missing string.
  * Machine integers: Python integers are unbounded, so `Nat`/`Int` are
    used directly; the 32-bit arithmetic inside SHA-256 takes explicit
    `% 2^32` reductions.
  * The worker's I/O (`save_queue`) may fail; the failure is threaded as a
    `saveOk : Bool` oracle and an exception is an `Except.error`.
-/

/-- A Python `datetime`: naive wall-clock value (microseconds) plus the
optional `utcoffset` (microseconds) when timezone-aware. -/
structure DT where
  wall : Int
  off : Option Int
deriving DecidableEq, Repr

namespace DT

/-- `datetime.replace(tzinfo=None)`: drop the offset, keep the wall-clock
fields. -/
def naiveProj (d : DT) : DT := ⟨d.wall, none⟩

/-- The instant an aware datetime denotes (UTC): wall-clock minus offset.
For a naive datetime this is just the wall-clock value. -/
def instant (d : DT) : Int := d.wall - d.off.getD 0

/-- `d + timedelta(seconds=secs)`. -/
def addSeconds (d : DT) (secs : Int) : DT := ⟨d.wall + secs * 1000000, d.off⟩

/-- Python `<=` on datetimes: defined for two naive values (wall-clock
order) and for two aware values (instant order); a mixed pair raises
`TypeError`, modelled as `none`. -/
def pyLe (a b : DT) : Option Bool :=
  match a.off, b.off with
  | none, none => some (decide (a.wall ≤ b.wall))
  | some oa, some ob => some (decide (a.wall - oa ≤ b.wall - ob))
  | _, _ => none

/-- Python `<` on datetimes, same domain as `pyLe`. -/
def pyLt (a b : DT) : Option Bool :=
  match a.off, b.off with
  | none, none => some (decide (a.wall < b.wall))
  | some oa, some ob => some (decide (a.wall - oa < b.wall - ob))
  | _, _ => none

/-- `datetime.max` (9999-12-31 23:59:59.999999, naive), as microseconds
since the epoch. -/
def maxWall : Int := 253402300799999999

/-- `datetime.max` itself. -/
def max : DT := ⟨maxWall, none⟩

end DT

/-- One queue entry of `queue.json`, with `scheduled_for` carried as its
parse result (`parse_job_dt` returns `datetime | None`).  The Python key
`"to"` is a Lean keyword, so the field is called `toAddr`. -/
structure Job where
  id : String
  toAddr : String
  scheduled_for : Option DT
  status : String
  attempts : Nat := 0
  last_error : String := ""
  sent_at : Option DT := none
  failed_at : Option DT := none
  subject : Option String := none
  template : Option String := none
  theme_index : Option Int := none
deriving DecidableEq, Repr

/-- The worker-relevant part of `cfg["app"]`:
`max_retries` (default 2) and `retry_delay_seconds` (default 300). -/
structure WCfg where
  maxRetries : Nat
  retryDelaySeconds : Int
deriving DecidableEq, Repr

/-- Python `str.strip()` whitespace set (ASCII part). -/
def isPySpace (c : Char) : Bool :=
  c = ' ' || c = '\t' || c = '\n' || c = '\x0d' || c = '\x0b' || c = '\x0c'

/-- Python `str.strip()`. -/
def pyStrip (s : String) : String :=
  ⟨((s.data.dropWhile isPySpace).reverse.dropWhile isPySpace).reverse⟩

/-- Python `str.lower()` (ASCII range; recipients and strategy names are
ASCII). -/
def pyCharLower (c : Char) : Char :=
  if 'A' ≤ c && c ≤ 'Z' then Char.ofNat (c.toNat + 32) else c

/-- Python `str.lower()` applied characterwise. -/
def pyLower (s : String) : String := ⟨s.data.map pyCharLower⟩

/-- `is_due(job_dt, now_dt)` from the worker: decides `job_dt <= now_dt`,
dropping the offset of the aware side when exactly one side is aware so
that the comparison cannot raise. -/
def is_due (job_dt now_dt : DT) : Bool :=
  match job_dt.off, now_dt.off with
  | none, some _ => decide (job_dt.wall ≤ (now_dt.naiveProj).wall)
  | some _, none => decide ((job_dt.naiveProj).wall ≤ now_dt.wall)
  | none, none => decide (job_dt.wall ≤ now_dt.wall)
  | some oj, some onw => decide (job_dt.wall - oj ≤ now_dt.wall - onw)

/-- `bump_retry(cfg, job, err)` from the worker.  The two calls the Python
body makes to `now_local(cfg)` are modelled by the single current time
`now`. -/
def bump_retry (cfg : WCfg) (now : DT) (job : Job) (err : String) : Job :=
  let attempts := job.attempts + 1
  let j := { job with attempts := attempts, last_error := err }
  if attempts > cfg.maxRetries then
    { j with status := "failed", failed_at := some now }
  else
    { j with scheduled_for := some (now.addSeconds cfg.retryDelaySeconds),
             status := "pending" }

/-- The specified due-comparison, written from the spec's words (§3, §4.4):
`job_dt <= now_dt`, where a mixed aware/naive pair is compared after
dropping the offset information of the aware side (its naive projection).
Used only to be compared against the source-derived `is_due`. -/
def dueSpecLe (job_dt now_dt : DT) : Prop :=
  match job_dt.off, now_dt.off with
  | none, none => job_dt.wall ≤ now_dt.wall
  | some _, some _ => job_dt.instant ≤ now_dt.instant
  | _, _ => (job_dt.naiveProj).wall ≤ (now_dt.naiveProj).wall

/-- C3: for every pair of datetimes — both aware, both naive, or mixed —
`is_due` is a total function (the embedding never reaches the raising
branch of the Python comparison) and it returns `true` exactly when
`job_dt <= now_dt` holds under the rule that a mixed comparison first
drops the offset information of the aware side. -/
theorem c3_is_due_total_and_correct (job_dt now_dt : DT) :
    is_due job_dt now_dt = true ↔ dueSpecLe job_dt now_dt := by
  obtain ⟨jw, joff⟩ := job_dt
  obtain ⟨nw, noff⟩ := now_dt
  cases joff <;> cases noff <;>
    simp [is_due, dueSpecLe, DT.instant, DT.naiveProj]

/-- C1: `bump_retry` increments `attempts` by exactly one and stores the
error message in `last_error`; if the incremented count strictly exceeds
`max_retries` the job becomes terminally `failed` with `failed_at = now`,
otherwise it is rescheduled to `now + retry_delay_seconds` and stays
`pending`. -/
theorem c1_bump_retry_policy (cfg : WCfg) (now : DT) (job : Job) (err : String) :
    (bump_retry cfg now job err).attempts = job.attempts + 1 ∧
    (bump_retry cfg now job err).last_error = err ∧
    (job.attempts + 1 > cfg.maxRetries →
      (bump_retry cfg now job err).status = "failed" ∧
      (bump_retry cfg now job err).failed_at = some now ∧
      (bump_retry cfg now job err).scheduled_for = job.scheduled_for) ∧
    (¬ job.attempts + 1 > cfg.maxRetries →
      (bump_retry cfg now job err).scheduled_for
          = some (now.addSeconds cfg.retryDelaySeconds) ∧
      (bump_retry cfg now job err).status = "pending") := by
  unfold bump_retry
  by_cases h : job.attempts + 1 > cfg.maxRetries <;> simp [h]

/-- Concrete instantiation of `c1_bump_retry_policy`: an exhausted job
(third failure against `max_retries = 2`) becomes terminally failed. -/
theorem c1_bump_retry_policy_witness :
    (2 + 1 > 2 →
      (bump_retry ⟨2, 300⟩ ⟨0, none⟩
          ⟨"j1", "a@x.com", some ⟨-100, none⟩, "pending", 2, "",
            none, none, none, none, none⟩ "boom").status = "failed" ∧
      (bump_retry ⟨2, 300⟩ ⟨0, none⟩
          ⟨"j1", "a@x.com", some ⟨-100, none⟩, "pending", 2, "",
            none, none, none, none, none⟩ "boom").failed_at = some ⟨0, none⟩ ∧
      (bump_retry ⟨2, 300⟩ ⟨0, none⟩
          ⟨"j1", "a@x.com", some ⟨-100, none⟩, "pending", 2, "",
            none, none, none, none, none⟩ "boom").scheduled_for
        = some ⟨-100, none⟩) :=
  (c1_bump_retry_policy ⟨2, 300⟩ ⟨0, none⟩
    ⟨"j1", "a@x.com", some ⟨-100, none⟩, "pending", 2, "",
      none, none, none, none, none⟩ "boom").2.2.1

/-!
### Ordering of the queue (`job_sort_key` and `jobs.sort`)

`jobs.sort(key=job_sort_key)` sorts the loaded jobs in place.  CPython's
`list.sort` is a stable sort that orders elements by comparing their keys
with `<`; a key with an unparseable/missing `scheduled_for` is
`datetime.max`.  Comparing a naive key with an aware key raises
`TypeError`, aborting the sort (and the worker process), which the
embedding models with `Option`: the sort below is the canonical stable
(insertion) sort over the partial comparison `DT.pyLt`, returning `none`
as soon as an incomparable pair of keys has to be compared.
-/

/-- `job_sort_key(j)` from the worker: the parsed `scheduled_for`, or
`datetime.max` when parsing failed. -/
def job_sort_key (j : Job) : DT := j.scheduled_for.getD DT.max

/-- Stable insertion of `x` into an already sorted suffix, comparing keys
with Python `<` (`none` propagates the `TypeError`). -/
def jobOrderedInsert (x : Job) : List Job → Option (List Job)
  | [] => some [x]
  | y :: ys =>
    match DT.pyLt (job_sort_key y) (job_sort_key x) with
    | none => none
    | some true => (fun t => y :: t) <$> jobOrderedInsert x ys
    | some false => some (x :: y :: ys)

/-- `jobs.sort(key=job_sort_key)`: stable sort of the whole queue, `none`
when a mixed aware/naive key comparison raises. -/
def sortJobs : List Job → Option (List Job)
  | [] => some []
  | x :: xs => (sortJobs xs).bind (jobOrderedInsert x)

/-- The sort key as a single instant: for a naive key the wall-clock
value, for an aware key the UTC instant. -/
def keyInstant (j : Job) : Int := (job_sort_key j).instant

/-- Order on jobs by `keyInstant`; within one awareness class this is
exactly the order Python's key comparison realizes. -/
def keyLE (a b : Job) : Prop := keyInstant a ≤ keyInstant b

instance : DecidableRel keyLE := fun _ _ => Int.decLe _ _

instance : IsTotal Job keyLE := ⟨fun _ _ => Int.le_total _ _⟩

instance : IsTrans Job keyLE := ⟨fun _ _ _ hab hbc => le_trans hab hbc⟩

/-- A collection of jobs whose sort keys are uniformly naive or uniformly
aware (the only collections Python can sort without raising). -/
def homogKeys (l : List Job) : Prop :=
  (∀ j ∈ l, (job_sort_key j).off = none) ∨ (∀ j ∈ l, (job_sort_key j).off ≠ none)

theorem pyLt_homog {a b : DT}
    (h : (a.off = none ∧ b.off = none) ∨ (a.off ≠ none ∧ b.off ≠ none)) :
    DT.pyLt a b = some (decide (a.instant < b.instant)) := by
  obtain ⟨wa, oa⟩ := a
  obtain ⟨wb, ob⟩ := b
  rcases h with ⟨h1, h2⟩ | ⟨h1, h2⟩
  · simp only at h1 h2
    subst h1; subst h2
    simp [DT.pyLt, DT.instant]
  · simp only at h1 h2
    rcases oa with _ | oa
    · exact absurd rfl h1
    rcases ob with _ | ob
    · exact absurd rfl h2
    simp [DT.pyLt, DT.instant]

theorem pyLe_homog {a b : DT}
    (h : (a.off = none ∧ b.off = none) ∨ (a.off ≠ none ∧ b.off ≠ none)) :
    DT.pyLe a b = some (decide (a.instant ≤ b.instant)) := by
  obtain ⟨wa, oa⟩ := a
  obtain ⟨wb, ob⟩ := b
  rcases h with ⟨h1, h2⟩ | ⟨h1, h2⟩
  · simp only at h1 h2
    subst h1; subst h2
    simp [DT.pyLe, DT.instant]
  · simp only at h1 h2
    rcases oa with _ | oa
    · exact absurd rfl h1
    rcases ob with _ | ob
    · exact absurd rfl h2
    simp [DT.pyLe, DT.instant]

theorem homogKeys_pair {l : List Job} (hl : homogKeys l) {a b : Job}
    (ha : a ∈ l) (hb : b ∈ l) :
    ((job_sort_key a).off = none ∧ (job_sort_key b).off = none) ∨
    ((job_sort_key a).off ≠ none ∧ (job_sort_key b).off ≠ none) := by
  rcases hl with hl | hl
  · exact Or.inl ⟨hl a ha, hl b hb⟩
  · exact Or.inr ⟨hl a ha, hl b hb⟩

theorem jobOrderedInsert_eq (x : Job) (s : List Job)
    (h : ∀ a ∈ x :: s, ∀ b ∈ x :: s,
      DT.pyLt (job_sort_key a) (job_sort_key b)
        = some (decide (keyInstant a < keyInstant b))) :
    jobOrderedInsert x s = some (List.orderedInsert keyLE x s) := by
  induction s with
  | nil => rfl
  | cons y ys ih =>
    have hxy := h y (by simp) x (by simp)
    have hsub : ∀ c, c ∈ x :: ys → c ∈ x :: y :: ys := by
      intro c hc
      rcases List.mem_cons.1 hc with hc1 | hc1
      · simp [hc1]
      · simp [hc1]
    by_cases hlt : keyInstant y < keyInstant x
    · have hnle : ¬ keyLE x y := by
        simp only [keyLE, not_le]
        omega
      have ih2 := ih (fun a ha b hb => h a (hsub a ha) b (hsub b hb))
      simp only [jobOrderedInsert, hxy, List.orderedInsert, if_neg hnle, ih2,
        hlt, decide_True, Option.map_some]
    · have hle : keyLE x y := by
        simp only [keyLE]
        omega
      simp only [jobOrderedInsert, hxy, List.orderedInsert, if_pos hle, hlt,
        decide_False]

theorem sortJobs_eq (l : List Job)
    (h : ∀ a ∈ l, ∀ b ∈ l,
      DT.pyLt (job_sort_key a) (job_sort_key b)
        = some (decide (keyInstant a < keyInstant b))) :
    sortJobs l = some (List.insertionSort keyLE l) := by
  induction l with
  | nil => rfl
  | cons x xs ih =>
    have ih2 := ih (fun a ha b hb => h a (by simp [ha]) b (by simp [hb]))
    have hmem : ∀ c, c ∈ x :: List.insertionSort keyLE xs → c ∈ x :: xs := by
      intro c hc
      rcases List.mem_cons.1 hc with hc1 | hc1
      · simp [hc1]
      · simp [(List.mem_insertionSort keyLE).1 hc1]
    rw [sortJobs, ih2]
    show jobOrderedInsert x (List.insertionSort keyLE xs)
      = some (List.insertionSort keyLE (x :: xs))
    rw [List.insertionSort]
    exact jobOrderedInsert_eq x (List.insertionSort keyLE xs)
      (fun a ha b hb => h a (hmem a ha) b (hmem b hb))

theorem sortJobs_pairwise_pyLt (l : List Job) (hl : homogKeys l) :
    ∀ a ∈ l, ∀ b ∈ l,
      DT.pyLt (job_sort_key a) (job_sort_key b)
        = some (decide (keyInstant a < keyInstant b)) :=
  fun _ ha _ hb => pyLt_homog (homogKeys_pair hl ha hb)

/-- C4 counterexample: the ordering step is not defined on a collection
that mixes an aware and a naive `scheduled_for`.  Sorting these two jobs
must compare a naive key with an aware key, which raises `TypeError`
(`none` in the embedding) instead of producing an order. -/
theorem c4_order_counterexample :
    sortJobs
      [⟨"n1", "a@x.com", some ⟨100, none⟩, "pending", 0, "",
         none, none, none, none, none⟩,
       ⟨"a1", "b@x.com", some ⟨100, some 3600000000⟩, "pending", 0, "",
         none, none, none, none, none⟩] = none := rfl

/-- C4 (amended): on a collection whose sort keys are uniformly naive or
uniformly aware (an unparseable/missing `scheduled_for` gives the naive
key `datetime.max`, so it may only be combined with naive ones), the
ordering step is defined and yields a permutation that is ascending under
Python's own datetime `<=`, is stable (order-respecting pairs of the
input stay in order), is idempotent, and places every job with an
unparseable/missing `scheduled_for` after all jobs whose parsed
`scheduled_for` is strictly earlier than `datetime.max`.  Mixing aware
keys with naive or unparseable ones raises `TypeError` instead
(`c4_order_counterexample`). -/
theorem c4_order_amended (l : List Job) (hl : homogKeys l) :
    ∃ l2, sortJobs l = some l2 ∧
      List.Perm l2 l ∧
      List.Pairwise
        (fun a b => DT.pyLe (job_sort_key a) (job_sort_key b) = some true) l2 ∧
      sortJobs l2 = some l2 ∧
      (∀ a b : Job, List.Sublist [a, b] l →
        DT.pyLe (job_sort_key a) (job_sort_key b) = some true →
        List.Sublist [a, b] l2) ∧
      (∀ l1 u l3, l2 = l1 ++ u :: l3 → u.scheduled_for = none →
        ∀ p ∈ l3, ∀ d, p.scheduled_for = some d → DT.maxWall ≤ d.wall) := by
  refine ⟨List.insertionSort keyLE l, ?_, ?_, ?_, ?_, ?_, ?_⟩
  · exact sortJobs_eq l (sortJobs_pairwise_pyLt l hl)
  · exact List.perm_insertionSort keyLE l
  · have hs : ∀ {a b : Job}, List.Sublist [a, b] (List.insertionSort keyLE l) →
        keyLE a b := List.pairwise_iff_forall_sublist.1
      (List.sorted_insertionSort keyLE l)
    refine List.pairwise_iff_forall_sublist.2 ?_
    intro a b hab
    have hk : keyLE a b := hs hab
    have ha : a ∈ l := (List.perm_insertionSort keyLE l).subset
      (hab.subset (by simp))
    have hb : b ∈ l := (List.perm_insertionSort keyLE l).subset
      (hab.subset (by simp))
    rw [pyLe_homog (homogKeys_pair hl ha hb)]
    simpa [keyInstant] using hk
  · have hmem : ∀ a ∈ List.insertionSort keyLE l, ∀ b ∈ List.insertionSort keyLE l,
        DT.pyLt (job_sort_key a) (job_sort_key b)
          = some (decide (keyInstant a < keyInstant b)) := by
      intro a ha b hb
      exact sortJobs_pairwise_pyLt l hl a ((List.mem_insertionSort keyLE).1 ha)
        b ((List.mem_insertionSort keyLE).1 hb)
    rw [sortJobs_eq _ hmem,
      List.Sorted.insertionSort_eq (List.sorted_insertionSort keyLE l)]
  · intro a b hab hle
    have ha : a ∈ l := hab.subset (by simp)
    have hb : b ∈ l := hab.subset (by simp)
    have hk : keyLE a b := by
      rw [pyLe_homog (homogKeys_pair hl ha hb)] at hle
      simpa [keyLE, keyInstant] using hle
    exact List.pair_sublist_insertionSort hk hab
  · intro l1 u l3 hsplit hu p hp d hd
    have hs : ∀ {a b : Job}, List.Sublist [a, b] (List.insertionSort keyLE l) →
        keyLE a b := List.pairwise_iff_forall_sublist.1
      (List.sorted_insertionSort keyLE l)
    have hup : keyLE u p := by
      apply hs
      rw [hsplit]
      have h1 : List.Sublist [u, p] (u :: l3) := by
        refine List.Sublist.cons₂ u ?_
        exact (List.singleton_sublist).2 hp
      exact h1.trans (List.sublist_append_right l1 (u :: l3))
    have hkeyu : job_sort_key u = DT.max := by
      simp [job_sort_key, hu]
    have hkeyp : job_sort_key p = d := by
      simp [job_sort_key, hd]
    have : DT.maxWall - (0 : Int) ≤ d.wall - d.off.getD 0 := by
      have := hup
      rw [keyLE, keyInstant, keyInstant, hkeyu, hkeyp] at this
      simpa [DT.instant, DT.max] using this
    have hoff : d.off = none := by
      rcases hl with hnaive | haware
      · have hpl : p ∈ l := (List.perm_insertionSort keyLE l).subset (by
          rw [hsplit]
          simp [hp])
        have := hnaive p hpl
        rwa [hkeyp] at this
      · have hul : u ∈ l := (List.perm_insertionSort keyLE l).subset (by
          rw [hsplit]
          simp)
        have := haware u hul
        rw [hkeyu] at this
        simp [DT.max] at this
    rw [hoff] at this
    simpa using this

/-- Concrete instantiation of `c4_order_amended`: a two-job queue with
one naive parseable and one unparseable `scheduled_for`. -/
theorem c4_order_amended_witness :
    (∀ j ∈ [(⟨"w1", "a@x.com", some ⟨200, none⟩, "pending", 0, "",
               none, none, none, none, none⟩ : Job),
             ⟨"w2", "b@x.com", none, "pending", 0, "",
               none, none, none, none, none⟩],
        (job_sort_key j).off = none) ∧
    (∃ l2, sortJobs
        [(⟨"w1", "a@x.com", some ⟨200, none⟩, "pending", 0, "",
            none, none, none, none, none⟩ : Job),
         ⟨"w2", "b@x.com", none, "pending", 0, "",
           none, none, none, none, none⟩] = some l2 ∧
      List.Perm l2
        [⟨"w1", "a@x.com", some ⟨200, none⟩, "pending", 0, "",
           none, none, none, none, none⟩,
         ⟨"w2", "b@x.com", none, "pending", 0, "",
           none, none, none, none, none⟩] ∧
      List.Pairwise
        (fun a b => DT.pyLe (job_sort_key a) (job_sort_key b) = some true) l2 ∧
      sortJobs l2 = some l2 ∧
      (∀ a b : Job, List.Sublist [a, b]
          [⟨"w1", "a@x.com", some ⟨200, none⟩, "pending", 0, "",
             none, none, none, none, none⟩,
           ⟨"w2", "b@x.com", none, "pending", 0, "",
             none, none, none, none, none⟩] →
        DT.pyLe (job_sort_key a) (job_sort_key b) = some true →
        List.Sublist [a, b] l2) ∧
      (∀ l1 u l3, l2 = l1 ++ u :: l3 → u.scheduled_for = none →
        ∀ p ∈ l3, ∀ d, p.scheduled_for = some d → DT.maxWall ≤ d.wall)) :=
  ⟨by decide,
   c4_order_amended
     [⟨"w1", "a@x.com", some ⟨200, none⟩, "pending", 0, "",
        none, none, none, none, none⟩,
      ⟨"w2", "b@x.com", none, "pending", 0, "",
        none, none, none, none, none⟩]
     (Or.inl (by decide))⟩

/-!
### The worker loop (016, `__main__` while-loop, one tick)

One tick: load the queue, sort it by `job_sort_key`, then walk the sorted
jobs.  A non-`pending` job is skipped untouched; a pending job with an
empty `to` or an unparseable `scheduled_for` is marked terminally failed;
a not-yet-due job is skipped; a due job is sent (`send_job`), marked
`sent` on success or passed to `bump_retry` on failure, and the whole
queue is saved immediately (`save_queue`).  After the walk the queue is
saved once more when anything changed.  `save_queue` performs unguarded
file I/O; an `OSError` there propagates out of the loop, which the
embedding models by `Except.error` with the message below.  The delivery
outcome of `send_job` is the oracle `deliver : Job → Option String`
(`none` = delivered, `some err` = the exception text `str(e)`).
-/

/-- The modelled text of an uncaught I/O failure inside `save_queue`. -/
def ioErrorMsg : String := "OSError: save_queue failed"

/-- The modelled text of the uncaught `TypeError` raised when
`jobs.sort` compares a naive key with an aware key. -/
def sortErrorMsg : String :=
  "TypeError: cannot compare offset-naive and offset-aware datetimes"

/-- The per-job action of one tick of the worker loop (body of
`for job in jobs`), as a pure job transformer. -/
def stepJob (cfg : WCfg) (now : DT) (deliver : Job → Option String)
    (j : Job) : Job :=
  if j.status ≠ "pending" then j
  else if pyStrip j.toAddr = "" then
    { j with status := "failed", last_error := "Missing \x27to\x27" }
  else
    match j.scheduled_for with
    | none =>
      { j with status := "failed", last_error := "Invalid \x27scheduled_for\x27" }
    | some dt =>
      if is_due dt now then
        match deliver j with
        | none => { j with status := "sent", sent_at := some now, last_error := "" }
        | some err => bump_retry cfg now j err
      else j

/-- Whether the tick at time `now` reaches the dispatch step (3.4) for
`j`: pending, non-empty recipient, parseable and due `scheduled_for`. -/
def isDispatched (now : DT) (j : Job) : Bool :=
  j.status = "pending" && pyStrip j.toAddr ≠ "" &&
    (match j.scheduled_for with
     | some dt => is_due dt now
     | none => false)

/-- The walk over the sorted jobs, with the `changed` flag and the
per-dispatch `save_queue` call (whose I/O failure aborts the walk). -/
def processJobs (cfg : WCfg) (now : DT) (deliver : Job → Option String)
    (saveOk : Bool) : List Job → Except String (List Job × Bool)
  | [] => Except.ok ([], false)
  | j :: rest =>
    if j.status ≠ "pending" then
      (fun r => (j :: r.1, r.2)) <$> processJobs cfg now deliver saveOk rest
    else if pyStrip j.toAddr = "" then
      (fun r => ({ j with status := "failed",
                          last_error := "Missing \x27to\x27" } :: r.1, true))
        <$> processJobs cfg now deliver saveOk rest
    else
      match j.scheduled_for with
      | none =>
        (fun r => ({ j with status := "failed",
                            last_error := "Invalid \x27scheduled_for\x27" } :: r.1,
                    true))
          <$> processJobs cfg now deliver saveOk rest
      | some dt =>
        if is_due dt now then
          let j2 := match deliver j with
            | none => { j with status := "sent", sent_at := some now,
                               last_error := "" }
            | some err => bump_retry cfg now j err
          if saveOk then
            (fun r => (j2 :: r.1, true)) <$> processJobs cfg now deliver saveOk rest
          else Except.error ioErrorMsg
        else
          (fun r => (j :: r.1, r.2)) <$> processJobs cfg now deliver saveOk rest

/-- One tick of the worker loop: sort, walk, final `save_queue` when
anything changed.  `Except.error` is an exception escaping the loop
(killing the worker process). -/
def worker_tick (cfg : WCfg) (now : DT) (deliver : Job → Option String)
    (saveOk : Bool) (jobs : List Job) : Except String (List Job) :=
  match sortJobs jobs with
  | none => Except.error sortErrorMsg
  | some sorted =>
    match processJobs cfg now deliver saveOk sorted with
    | Except.error e => Except.error e
    | Except.ok (l, changed) =>
      if changed && !saveOk then Except.error ioErrorMsg else Except.ok l

theorem jobOrderedInsert_perm (x : Job) (s : List Job) {t : List Job}
    (h : jobOrderedInsert x s = some t) : List.Perm t (x :: s) := by
  induction s generalizing t with
  | nil =>
    simp only [jobOrderedInsert, Option.some.injEq] at h
    subst h
    exact List.Perm.refl _
  | cons y ys ih =>
    rw [jobOrderedInsert] at h
    rcases hc : DT.pyLt (job_sort_key y) (job_sort_key x) with _ | b
    · rw [hc] at h
      exact absurd h (by simp)
    · rw [hc] at h
      cases b
      · simp only [Option.some.injEq] at h
        subst h
        exact List.Perm.refl _
      · rcases ht : jobOrderedInsert x ys with _ | t2
        · rw [ht] at h
          exact absurd h (by simp)
        · rw [ht] at h
          simp only [Option.map_some, Option.some.injEq] at h
          subst h
          exact (List.Perm.cons y (ih ht)).trans (List.Perm.swap x y ys)

theorem sortJobs_perm (l : List Job) {t : List Job} (h : sortJobs l = some t) :
    List.Perm t l := by
  induction l generalizing t with
  | nil =>
    simp only [sortJobs, Option.some.injEq] at h
    subst h
    exact List.Perm.refl _
  | cons x xs ih =>
    rw [sortJobs] at h
    rcases hs : sortJobs xs with _ | s2
    · rw [hs] at h
      exact absurd h (by simp)
    · rw [hs] at h
      exact (jobOrderedInsert_perm x s2 h).trans (List.Perm.cons x (ih hs))

theorem processJobs_ok_map (cfg : WCfg) (now : DT)
    (deliver : Job → Option String) (saveOk : Bool) (l : List Job)
    {l2 : List Job} {c : Bool}
    (h : processJobs cfg now deliver saveOk l = Except.ok (l2, c)) :
    l2 = l.map (stepJob cfg now deliver) := by
  induction l generalizing l2 c with
  | nil =>
    simp only [processJobs, Except.ok.injEq, Prod.mk.injEq] at h
    exact h.1.symm
  | cons j rest ih =>
    rw [processJobs] at h
    by_cases h1 : j.status ≠ "pending"
    · rw [if_pos h1] at h
      rcases hr : processJobs cfg now deliver saveOk rest with e | ⟨r1, r2⟩
      · rw [hr] at h
        exact absurd h (by simp [Except.map])
      · rw [hr] at h
        simp only [Except.map_ok, Except.ok.injEq, Prod.mk.injEq] at h
        rw [← h.1, ih hr]
        simp [stepJob, if_pos h1]
    · rw [if_neg h1] at h
      by_cases h2 : pyStrip j.toAddr = ""
      · rw [if_pos h2] at h
        rcases hr : processJobs cfg now deliver saveOk rest with e | ⟨r1, r2⟩
        · rw [hr] at h
          exact absurd h (by simp [Except.map])
        · rw [hr] at h
          simp only [Except.map_ok, Except.ok.injEq, Prod.mk.injEq] at h
          rw [← h.1, ih hr]
          simp [stepJob, if_neg h1, if_pos h2]
      · rw [if_neg h2] at h
        rcases h3 : j.scheduled_for with _ | dt
        · rw [h3] at h
          simp only [] at h
          rcases hr : processJobs cfg now deliver saveOk rest with e | ⟨r1, r2⟩
          · rw [hr] at h
            exact absurd h (by simp [Except.map])
          · rw [hr] at h
            simp only [Except.map_ok, Except.ok.injEq, Prod.mk.injEq] at h
            rw [← h.1, ih hr]
            simp [stepJob, if_neg h1, if_neg h2, h3]
        · rw [h3] at h
          simp only [] at h
          by_cases h4 : is_due dt now
          · rw [if_pos h4] at h
            by_cases h5 : saveOk
            · rw [if_pos h5] at h
              rcases hr : processJobs cfg now deliver saveOk rest with e | ⟨r1, r2⟩
              · rw [hr] at h
                exact absurd h (by simp [Except.map])
              · rw [hr] at h
                simp only [Except.map_ok, Except.ok.injEq, Prod.mk.injEq] at h
                rw [← h.1, ih hr]
                simp only [List.map]
                congr 1
                simp only [stepJob, if_neg h1, if_neg h2, h3, if_pos h4]
            · rw [if_neg h5] at h
              exact absurd h (by simp)
          · rw [if_neg h4] at h
            rcases hr : processJobs cfg now deliver saveOk rest with e | ⟨r1, r2⟩
            · rw [hr] at h
              exact absurd h (by simp [Except.map])
            · rw [hr] at h
              simp only [Except.map_ok, Except.ok.injEq, Prod.mk.injEq] at h
              rw [← h.1, ih hr]
              simp [stepJob, if_neg h1, if_neg h2, h3, if_neg h4]

theorem stepJob_not_pending (cfg : WCfg) (now : DT)
    (deliver : Job → Option String) (j : Job) (h : j.status ≠ "pending") :
    stepJob cfg now deliver j = j := by
  simp [stepJob, h]

/-- The §3 invariant on one job: an attempts count beyond `max_retries`
only occurs in terminal `failed` state. -/
def retryInv (cfg : WCfg) (j : Job) : Prop :=
  cfg.maxRetries < j.attempts → j.status = "failed"

theorem stepJob_retryInv (cfg : WCfg) (now : DT)
    (deliver : Job → Option String) (j : Job) (hj : retryInv cfg j) :
    retryInv cfg (stepJob cfg now deliver j) := by
  unfold stepJob
  by_cases h1 : j.status ≠ "pending"
  · simpa [h1] using hj
  · have hpend : j.status = "pending" := not_not.1 h1
    rw [if_neg h1]
    by_cases h2 : pyStrip j.toAddr = ""
    · intro _
      simp [h2]
    · rw [if_neg h2]
      rcases h3 : j.scheduled_for with _ | dt
    
      · intro _
        rfl
      · simp only []
        by_cases h4 : is_due dt now
        · rw [if_pos h4]
          rcases deliver j with _ | err
        
          · intro hgt
            simp only at hgt
            have := hj hgt
            rw [hpend] at this
            exact absurd this (by decide)
          · unfold bump_retry retryInv
            by_cases h5 : j.attempts + 1 > cfg.maxRetries
            · intro _
              simp [h5]
            · intro hgt
              simp only [if_neg h5] at hgt
              omega
        · rw [if_neg h4]
          exact hj

theorem failed_not_dispatched (now : DT) (j : Job)
    (h : j.status = "failed") : isDispatched now j = false := by
  simp [isDispatched, h]

theorem worker_tick_ok (cfg : WCfg) (now : DT)
    (deliver : Job → Option String) (saveOk : Bool) (jobs : List Job)
    {l2 : List Job}
    (h : worker_tick cfg now deliver saveOk jobs = Except.ok l2) :
    ∃ sorted, sortJobs jobs = some sorted ∧ List.Perm sorted jobs ∧
      l2 = sorted.map (stepJob cfg now deliver) := by
  unfold worker_tick at h
  rcases hs : sortJobs jobs with _ | sorted
  · rw [hs] at h
    exact absurd h (by simp)
  · rw [hs] at h
    simp only [] at h
    rcases hp : processJobs cfg now deliver saveOk sorted with e | ⟨r1, r2⟩
    · rw [hp] at h
      exact absurd h (by simp)
    · rw [hp] at h
      simp only [] at h
      by_cases hc : (r2 && !saveOk) = true
      · rw [if_pos hc] at h
        exact absurd h (by simp)
      · rw [if_neg hc] at h
        simp only [Except.ok.injEq] at h
        exact ⟨sorted, rfl, sortJobs_perm jobs hs,
          h ▸ processJobs_ok_map cfg now deliver saveOk sorted hp⟩

/-- The worker's step relation: one tick, for some current time, delivery
outcomes and `save_queue` behaviour, that terminates normally. -/
def WStep (cfg : WCfg) (s s2 : List Job) : Prop :=
  ∃ now deliver saveOk, worker_tick cfg now deliver saveOk s = Except.ok s2

/-- Queue states reachable by worker ticks from a freshly enqueued queue
(every job starts with `attempts = 0`, §3). -/
def WReachable (cfg : WCfg) (s : List Job) : Prop :=
  ∃ s0, (∀ j ∈ s0, j.attempts = 0) ∧ Relation.ReflTransGen (WStep cfg) s0 s

theorem wreachable_retryInv (cfg : WCfg) (s : List Job)
    (hreach : WReachable cfg s) : ∀ j ∈ s, retryInv cfg j := by
  obtain ⟨s0, h0, hsteps⟩ := hreach
  induction hsteps with
  | refl =>
    intro j hj _
    have := h0 j hj
    omega
  | tail _ hstep ih =>
    rename_i b c _
    intro j hj
    obtain ⟨now, deliver, saveOk, hrun⟩ := hstep
    obtain ⟨sorted, _, hperm, hmap⟩ :=
      worker_tick_ok cfg now deliver saveOk b hrun
    rw [hmap] at hj
    obtain ⟨j0, hj0, hj0e⟩ := List.mem_map.1 hj
    have hj0b : j0 ∈ b := hperm.subset hj0
    exact hj0e ▸ stepJob_retryInv cfg now deliver j0 (ih j0 hj0b)

/-- C2: in every queue state reachable by worker ticks from a freshly
enqueued queue, a job with `attempts > max_retries` is in terminal
`failed` state and is never dispatched again; and a tick never changes
any field of a job whose status is `sent` or `failed` (the loop skips
every non-pending job). -/
theorem c2_terminal_jobs_frozen (cfg : WCfg) (s : List Job)
    (hreach : WReachable cfg s) :
    (∀ j ∈ s, cfg.maxRetries < j.attempts →
      j.status = "failed" ∧ ∀ now, isDispatched now j = false) ∧
    (∀ s2, WStep cfg s s2 →
      ∀ j ∈ s, (j.status = "sent" ∨ j.status = "failed") → j ∈ s2) := by
  constructor
  · intro j hj hgt
    have hfailed := wreachable_retryInv cfg s hreach j hj hgt
    exact ⟨hfailed, fun now => failed_not_dispatched now j hfailed⟩
  · intro s2 hstep j hj hterm
    obtain ⟨now, deliver, saveOk, hrun⟩ := hstep
    obtain ⟨sorted, _, hperm, hmap⟩ :=
      worker_tick_ok cfg now deliver saveOk s hrun
    have hjs : j ∈ sorted := hperm.symm.subset hj
    have hnp : j.status ≠ "pending" := by
      rcases hterm with h | h <;> simp [h]
    rw [hmap]
    exact List.mem_map.2 ⟨j, hjs, stepJob_not_pending cfg now deliver j hnp⟩

/-- Concrete instantiation of `c2_terminal_jobs_frozen` at a freshly
enqueued one-job queue (reachable in zero ticks). -/
theorem c2_terminal_jobs_frozen_witness :
    (∀ j ∈ [(⟨"z1", "a@x.com", some ⟨100, none⟩, "pending", 0, "",
               none, none, none, none, none⟩ : Job)],
       (2 : Nat) < j.attempts →
         j.status = "failed" ∧ ∀ now, isDispatched now j = false) ∧
    (∀ s2, WStep ⟨2, 300⟩
        [⟨"z1", "a@x.com", some ⟨100, none⟩, "pending", 0, "",
           none, none, none, none, none⟩] s2 →
      ∀ j ∈ [(⟨"z1", "a@x.com", some ⟨100, none⟩, "pending", 0, "",
                none, none, none, none, none⟩ : Job)],
        (j.status = "sent" ∨ j.status = "failed") → j ∈ s2) :=
  c2_terminal_jobs_frozen ⟨2, 300⟩
    [⟨"z1", "a@x.com", some ⟨100, none⟩, "pending", 0, "",
       none, none, none, none, none⟩]
    ⟨[⟨"z1", "a@x.com", some ⟨100, none⟩, "pending", 0, "",
        none, none, none, none, none⟩],
      by decide, Relation.ReflTransGen.refl⟩

/-- C6: a pending job with an empty (or whitespace) recipient or an
unparseable `scheduled_for` is failed by the first tick that inspects it,
with the worker's descriptive `last_error` (`Missing 'to'` takes
precedence, as in the source), its `attempts` count untouched, and the
dispatch step is never reached for it. -/
theorem c6_validation_rejects (cfg : WCfg) (now : DT)
    (deliver : Job → Option String) (saveOk : Bool) (s s2 : List Job) (j : Job)
    (hrun : worker_tick cfg now deliver saveOk s = Except.ok s2)
    (hj : j ∈ s) (hpend : j.status = "pending")
    (hbad : pyStrip j.toAddr = "" ∨ j.scheduled_for = none) :
    stepJob cfg now deliver j
      = (if pyStrip j.toAddr = ""
         then { j with status := "failed", last_error := "Missing \x27to\x27" }
         else { j with status := "failed",
                       last_error := "Invalid \x27scheduled_for\x27" }) ∧
    (stepJob cfg now deliver j).status = "failed" ∧
    (stepJob cfg now deliver j).attempts = j.attempts ∧
    stepJob cfg now deliver j ∈ s2 ∧
    isDispatched now j = false := by
  have hmem : stepJob cfg now deliver j ∈ s2 := by
    obtain ⟨sorted, _, hperm, hmap⟩ :=
      worker_tick_ok cfg now deliver saveOk s hrun
    rw [hmap]
    exact List.mem_map.2 ⟨j, hperm.symm.subset hj, rfl⟩
  by_cases hto : pyStrip j.toAddr = ""
  · have hstep : stepJob cfg now deliver j
        = { j with status := "failed", last_error := "Missing \x27to\x27" } := by
      simp [stepJob, hpend, hto]
    refine ⟨?_, ?_, ?_, hmem, ?_⟩
    · rw [if_pos hto]
      exact hstep
    · rw [hstep]
    · rw [hstep]
    · simp [isDispatched, hto]
  · have hsched : j.scheduled_for = none := hbad.resolve_left hto
    have hstep : stepJob cfg now deliver j
        = { j with status := "failed",
                   last_error := "Invalid \x27scheduled_for\x27" } := by
      simp [stepJob, hpend, hto, hsched]
    refine ⟨?_, ?_, ?_, hmem, ?_⟩
    · rw [if_neg hto]
      exact hstep
    · rw [hstep]
    · rw [hstep]
    · simp [isDispatched, hsched]

/-- Concrete instantiation of `c6_validation_rejects`: a pending job with
empty recipient is failed with `Missing 'to'` on the tick that sees it,
without any delivery attempt. -/
theorem c6_validation_rejects_witness :
    worker_tick ⟨2, 300⟩ ⟨0, none⟩ (fun _ => some "boom") true
        [⟨"b1", "", some ⟨0, none⟩, "pending", 0, "",
           none, none, none, none, none⟩]
      = Except.ok
        [⟨"b1", "", some ⟨0, none⟩, "failed", 0, "Missing \x27to\x27",
           none, none, none, none, none⟩] ∧
    (stepJob ⟨2, 300⟩ ⟨0, none⟩ (fun _ => some "boom")
        ⟨"b1", "", some ⟨0, none⟩, "pending", 0, "",
          none, none, none, none, none⟩).status = "failed" ∧
    (stepJob ⟨2, 300⟩ ⟨0, none⟩ (fun _ => some "boom")
        ⟨"b1", "", some ⟨0, none⟩, "pending", 0, "",
          none, none, none, none, none⟩).attempts = 0 ∧
    isDispatched ⟨0, none⟩
        ⟨"b1", "", some ⟨0, none⟩, "pending", 0, "",
          none, none, none, none, none⟩ = false := by
  have h := c6_validation_rejects ⟨2, 300⟩ ⟨0, none⟩ (fun _ => some "boom") true
    [⟨"b1", "", some ⟨0, none⟩, "pending", 0, "",
       none, none, none, none, none⟩]
    [⟨"b1", "", some ⟨0, none⟩, "failed", 0, "Missing \x27to\x27",
       none, none, none, none, none⟩]
    ⟨"b1", "", some ⟨0, none⟩, "pending", 0, "",
      none, none, none, none, none⟩
    (by rfl) (by simp) rfl (Or.inl (by decide))
  exact ⟨by rfl, h.2.1, h.2.2.1, h.2.2.2.2⟩

theorem processJobs_error_msg (cfg : WCfg) (now : DT)
    (deliver : Job → Option String) (saveOk : Bool) (l : List Job) {e : String}
    (h : processJobs cfg now deliver saveOk l = Except.error e) :
    e = ioErrorMsg := by
  induction l generalizing e with
  | nil => simp [processJobs] at h
  | cons j rest ih =>
    rw [processJobs] at h
    by_cases h1 : j.status ≠ "pending"
    · rw [if_pos h1] at h
      rcases hp : processJobs cfg now deliver saveOk rest with e2 | ⟨r1, r2⟩
      · rw [hp] at h
        simp only [Except.map_error, Except.error.injEq] at h
        exact h ▸ ih hp
      · rw [hp] at h
        simp only [Except.map_ok] at h
        exact absurd h (by simp)
    · rw [if_neg h1] at h
      by_cases h2 : pyStrip j.toAddr = ""
      · rw [if_pos h2] at h
        rcases hp : processJobs cfg now deliver saveOk rest with e2 | ⟨r1, r2⟩
        · rw [hp] at h
          simp only [Except.map_error, Except.error.injEq] at h
          exact h ▸ ih hp
        · rw [hp] at h
          simp only [Except.map_ok] at h
          exact absurd h (by simp)
      · rw [if_neg h2] at h
        rcases h3 : j.scheduled_for with _ | dt
        · rw [h3] at h
          simp only [] at h
          rcases hp : processJobs cfg now deliver saveOk rest with e2 | ⟨r1, r2⟩
          · rw [hp] at h
            simp only [Except.map_error, Except.error.injEq] at h
            exact h ▸ ih hp
          · rw [hp] at h
            simp only [Except.map_ok] at h
            exact absurd h (by simp)
        · rw [h3] at h
          simp only [] at h
          by_cases h4 : is_due dt now
          · rw [if_pos h4] at h
            by_cases h5 : saveOk
            · rw [if_pos h5] at h
              rcases hp : processJobs cfg now deliver saveOk rest with e2 | ⟨r1, r2⟩
              · rw [hp] at h
                simp only [Except.map_error, Except.error.injEq] at h
                exact h ▸ ih hp
              · rw [hp] at h
                simp only [Except.map_ok] at h
                exact absurd h (by simp)
            · rw [if_neg h5] at h
              simp only [Except.error.injEq] at h
              exact h.symm
          · rw [if_neg h4] at h
            rcases hp : processJobs cfg now deliver saveOk rest with e2 | ⟨r1, r2⟩
            · rw [hp] at h
              simp only [Except.map_error, Except.error.injEq] at h
              exact h ▸ ih hp
            · rw [hp] at h
              simp only [Except.map_ok] at h
              exact absurd h (by simp)

theorem processJobs_false_changed (cfg : WCfg) (now : DT)
    (deliver : Job → Option String) (l : List Job)
    (hch : ∃ j ∈ l, stepJob cfg now deliver j ≠ j) :
    processJobs cfg now deliver false l = Except.error ioErrorMsg ∨
    ∃ r, processJobs cfg now deliver false l = Except.ok (r, true) := by
  induction l with
  | nil =>
    obtain ⟨j, hj, _⟩ := hch
    exact absurd hj (by simp)
  | cons j rest ih =>
    rw [processJobs]
    by_cases h1 : j.status ≠ "pending"
    · rw [if_pos h1]
      have hid : stepJob cfg now deliver j = j :=
        stepJob_not_pending cfg now deliver j h1
      have hch2 : ∃ j2 ∈ rest, stepJob cfg now deliver j2 ≠ j2 := by
        obtain ⟨j2, hj2, hne⟩ := hch
        rcases List.mem_cons.1 hj2 with he | hm
        · subst he
          exact absurd hid hne
        · exact ⟨j2, hm, hne⟩
      rcases ih hch2 with he | ⟨r, hr⟩
      · rw [he]
        exact Or.inl rfl
      · rw [hr]
        exact Or.inr ⟨j :: r, rfl⟩
    · rw [if_neg h1]
      by_cases h2 : pyStrip j.toAddr = ""
      · rw [if_pos h2]
        rcases hp : processJobs cfg now deliver false rest with e | ⟨r1, r2⟩
        · rw [processJobs_error_msg cfg now deliver false rest hp]
          exact Or.inl rfl
        · exact Or.inr ⟨_ :: r1, rfl⟩
      · rw [if_neg h2]
        rcases h3 : j.scheduled_for with _ | dt
        · simp only []
          rcases hp : processJobs cfg now deliver false rest with e | ⟨r1, r2⟩
          · rw [processJobs_error_msg cfg now deliver false rest hp]
            exact Or.inl rfl
          · exact Or.inr ⟨_ :: r1, rfl⟩
        · simp only []
          by_cases h4 : is_due dt now
          · rw [if_pos h4]
            exact Or.inl rfl
          · rw [if_neg h4]
            have hid : stepJob cfg now deliver j = j := by
              simp [stepJob, not_not.1 h1, h2, h3, h4]
            have hch2 : ∃ j2 ∈ rest, stepJob cfg now deliver j2 ≠ j2 := by
              obtain ⟨j2, hj2, hne⟩ := hch
              rcases List.mem_cons.1 hj2 with he | hm
              · subst he
                exact absurd hid hne
              · exact ⟨j2, hm, hne⟩
            rcases ih hch2 with he | ⟨r, hr⟩
            · rw [he]
              exact Or.inl rfl
            · rw [hr]
              exact Or.inr ⟨j :: r, rfl⟩

/-- C5 counterexample: the worker does not survive a persistence failure.
With one due pending job delivered successfully but `save_queue` failing,
the tick ends in the uncaught I/O error (the worker process dies) instead
of logging a warning and continuing: the `save_queue` call sites in the
loop are not wrapped in any `try`/`except`. -/
theorem c5_persist_error_counterexample :
    worker_tick ⟨2, 300⟩ ⟨0, none⟩ (fun _ => none) false
      [⟨"p1", "a@x.com", some ⟨-100, none⟩, "pending", 0, "",
         none, none, none, none, none⟩] = Except.error ioErrorMsg := rfl

/-- C5 (amended): an I/O failure in `save_queue` is not caught by the
worker loop.  Whenever the tick makes any change to any job (so that a
`save_queue` call happens, either right after a dispatch or at the end of
the tick), a failing save aborts the tick with the I/O error, which
propagates out of the `while True` loop and terminates the worker
process; no warning-and-continue path exists. -/
theorem c5_persist_error_amended (cfg : WCfg) (now : DT)
    (deliver : Job → Option String) (jobs sorted : List Job)
    (hsort : sortJobs jobs = some sorted)
    (hch : ∃ j ∈ jobs, stepJob cfg now deliver j ≠ j) :
    worker_tick cfg now deliver false jobs = Except.error ioErrorMsg := by
  have hperm := sortJobs_perm jobs hsort
  have hch2 : ∃ j ∈ sorted, stepJob cfg now deliver j ≠ j := by
    obtain ⟨j, hj, hne⟩ := hch
    exact ⟨j, hperm.symm.subset hj, hne⟩
  unfold worker_tick
  rw [hsort]
  simp only []
  rcases processJobs_false_changed cfg now deliver sorted hch2 with he | ⟨r, hr⟩
  · rw [he]
  · rw [hr]
    rfl

/-- Concrete instantiation of `c5_persist_error_amended`. -/
theorem c5_persist_error_amended_witness :
    sortJobs [(⟨"p2", "b@x.com", some ⟨-100, none⟩, "pending", 0, "",
                 none, none, none, none, none⟩ : Job)]
      = some [⟨"p2", "b@x.com", some ⟨-100, none⟩, "pending", 0, "",
                none, none, none, none, none⟩] ∧
    (∃ j ∈ [(⟨"p2", "b@x.com", some ⟨-100, none⟩, "pending", 0, "",
               none, none, none, none, none⟩ : Job)],
      stepJob ⟨2, 300⟩ ⟨0, none⟩ (fun _ => none) j ≠ j) ∧
    worker_tick ⟨2, 300⟩ ⟨0, none⟩ (fun _ => none) false
      [⟨"p2", "b@x.com", some ⟨-100, none⟩, "pending", 0, "",
         none, none, none, none, none⟩] = Except.error ioErrorMsg :=
  ⟨rfl, by decide,
   c5_persist_error_amended ⟨2, 300⟩ ⟨0, none⟩ (fun _ => none)
     [⟨"p2", "b@x.com", some ⟨-100, none⟩, "pending", 0, "",
        none, none, none, none, none⟩]
     [⟨"p2", "b@x.com", some ⟨-100, none⟩, "pending", 0, "",
        none, none, none, none, none⟩]
     rfl (by decide)⟩

/-!
### Variant (theme) selection — `Version Final/pierodev_email_sender.py`

`pick_theme_index` chooses a theme index by strategy (`round_robin`
default, `random`, `by_recipient`); `resolve_theme` applies the optional
per-job override first.  `hashlib.sha256` is implemented below;
`int(h, 16)` of the hex digest is the digest read as a base-2^32
big-endian number (`SHA256.digestNat`).  The sampled value of
`random.randrange(n)` is passed in as the oracle `rnd`.  The persisted
Variant Rotation State (`templates_state.json`) is `Option Int`: `some c`
a file whose `rr_next` is `c`, `none` a missing or corrupt file.
-/

namespace SHA256

/-- Truncation to a 32-bit word. -/
def w32 (x : Nat) : Nat := x % 4294967296

/-- 32-bit right rotation. -/
def rotr (x n : Nat) : Nat := w32 ((x >>> n) ||| (x <<< (32 - n)))

/-- `Ch(x,y,z) = (x ∧ y) ⊕ (¬x ∧ z)`, with `¬` as XOR against the 32-bit
mask. -/
def ch (x y z : Nat) : Nat := (x &&& y) ^^^ ((x ^^^ 4294967295) &&& z)

/-- `Maj(x,y,z)`. -/
def maj (x y z : Nat) : Nat := (x &&& y) ^^^ (x &&& z) ^^^ (y &&& z)

/-- `Σ0`. -/
def bs0 (x : Nat) : Nat := rotr x 2 ^^^ rotr x 13 ^^^ rotr x 22

/-- `Σ1`. -/
def bs1 (x : Nat) : Nat := rotr x 6 ^^^ rotr x 11 ^^^ rotr x 25

/-- `σ0`. -/
def ss0 (x : Nat) : Nat := rotr x 7 ^^^ rotr x 18 ^^^ (x >>> 3)

/-- `σ1`. -/
def ss1 (x : Nat) : Nat := rotr x 17 ^^^ rotr x 19 ^^^ (x >>> 10)

/-- The 64 SHA-256 round constants (FIPS 180-4), in decimal. -/
def K : List Nat :=
  [1116352408, 1899447441, 3049323471, 3921009573, 961987163,
   1508970993, 2453635748, 2870763221, 3624381080, 310598401,
   607225278, 1426881987, 1925078388, 2162078206, 2614888103,
   3248222580, 3835390401, 4022224774, 264347078, 604807628,
   770255983, 1249150122, 1555081692, 1996064986, 2554220882,
   2821834349, 2952996808, 3210313671, 3336571891, 3584528711,
   113926993, 338241895, 666307205, 773529912, 1294757372,
   1396182291, 1695183700, 1986661051, 2177026350, 2456956037,
   2730485921, 2820302411, 3259730800, 3345764771, 3516065817,
   3600352804, 4094571909, 275423344, 430227734, 506948616,
   659060556, 883997877, 958139571, 1322822218, 1537002063,
   1747873779, 1955562222, 2024104815, 2227730452, 2361852424,
   2428436474, 2756734187, 3204031479, 3329325298]

/-- The eight working variables / hash state. -/
structure Hs where
  a : Nat
  b : Nat
  c : Nat
  d : Nat
  e : Nat
  f : Nat
  g : Nat
  h : Nat
deriving Repr, DecidableEq

/-- Initial hash value, in decimal. -/
def initH : Hs :=
  ⟨1779033703, 3144134277, 1013904242, 2773480762,
   1359893119, 2600822924, 528734635, 1541459225⟩

/-- Big-endian bytes to 32-bit words. -/
def toWords : List Nat → List Nat
  | b0 :: b1 :: b2 :: b3 :: rest =>
    (((b0 * 256 + b1) * 256 + b2) * 256 + b3) :: toWords rest
  | _ => []

/-- Message-schedule extension of the 16 block words to 64. -/
def schedule (ws : List Nat) : List Nat :=
  (List.range 48).foldl
    (fun acc i =>
      acc ++ [w32 (ss1 (acc.getD (i + 14) 0) + acc.getD (i + 9) 0 +
        ss0 (acc.getD (i + 1) 0) + acc.getD i 0)])
    ws

/-- One compression round. -/
def round1 (s : Hs) (kw : Nat × Nat) : Hs :=
  let t1 := w32 (s.h + bs1 s.e + ch s.e s.f s.g + kw.1 + kw.2)
  let t2 := w32 (bs0 s.a + maj s.a s.b s.c)
  ⟨w32 (t1 + t2), s.a, s.b, s.c, w32 (s.d + t1), s.e, s.f, s.g⟩

/-- Compression of one 64-byte block. -/
def compress (H : Hs) (block : List Nat) : Hs :=
  let ws := schedule (toWords block)
  let s := (K.zip ws).foldl round1 H
  ⟨w32 (H.a + s.a), w32 (H.b + s.b), w32 (H.c + s.c), w32 (H.d + s.d),
   w32 (H.e + s.e), w32 (H.f + s.f), w32 (H.g + s.g), w32 (H.h + s.h)⟩

/-- 64-bit big-endian length field. -/
def lenBytes (n : Nat) : List Nat :=
  [(n >>> 56) &&& 255, (n >>> 48) &&& 255, (n >>> 40) &&& 255,
   (n >>> 32) &&& 255, (n >>> 24) &&& 255, (n >>> 16) &&& 255,
   (n >>> 8) &&& 255, n &&& 255]

/-- SHA-2 padding: `0x80`, zeros to 56 mod 64, 64-bit bit length. -/
def pad (msg : List Nat) : List Nat :=
  let L := msg.length
  msg ++ [128] ++ List.replicate ((119 - L % 64) % 64) 0 ++ lenBytes (8 * L)

/-- Split into 64-byte blocks. -/
def toBlocks : List Nat → List (List Nat)
  | [] => []
  | b :: rest => ((b :: rest).take 64) :: toBlocks ((b :: rest).drop 64)
termination_by l => l.length
decreasing_by simp [List.length_drop]; omega

/-- `int(hashlib.sha256(msg).hexdigest(), 16)`: the digest as one number.
Checked against FIPS 180 test vectors (`abc`, the empty string) during
development. -/
def digestNat (msg : List Nat) : Nat :=
  let Hf := (toBlocks (pad msg)).foldl compress initH
  ((((((Hf.a * 4294967296 + Hf.b) * 4294967296 + Hf.c) * 4294967296 + Hf.d)
    * 4294967296 + Hf.e) * 4294967296 + Hf.f) * 4294967296 + Hf.g)
    * 4294967296 + Hf.h

end SHA256

/-- UTF-8 encoding of one character (`str.encode("utf-8")`). -/
def utf8Char (c : Char) : List Nat :=
  let n := c.toNat
  if n < 128 then [n]
  else if n < 2048 then [192 ||| (n >>> 6), 128 ||| (n &&& 63)]
  else if n < 65536 then
    [224 ||| (n >>> 12), 128 ||| ((n >>> 6) &&& 63), 128 ||| (n &&& 63)]
  else
    [240 ||| (n >>> 18), 128 ||| ((n >>> 12) &&& 63),
     128 ||| ((n >>> 6) &&& 63), 128 ||| (n &&& 63)]

/-- UTF-8 encoding of a string. -/
def utf8Bytes (s : String) : List Nat :=
  s.data.foldr (fun c acc => utf8Char c ++ acc) []

/-- One entry of `cfg["templates"]["themes"]` (the color-replacement map
is irrelevant to selection and omitted). -/
structure Theme where
  name : String
deriving DecidableEq, Repr

/-- The selection-relevant part of `cfg["templates"]`. -/
structure TemplatesCfg where
  enabled : Bool
  strategy : String
  themes : List Theme
deriving DecidableEq, Repr

/-- `templates_enabled(cfg)`. -/
def templates_enabled (tcfg : TemplatesCfg) : Bool := tcfg.enabled

/-- `get_themes(cfg)`. -/
def get_themes (tcfg : TemplatesCfg) : List Theme := tcfg.themes

/-- `load_templates_state(cfg)["rr_next"]`: the stored cursor, or 0 when
the state file is missing or corrupt. -/
def load_templates_state (fs : Option Int) : Int := fs.getD 0

/-- `str(tcfg.get("strategy", "round_robin")).strip().lower()`. -/
def strategyNorm (tcfg : TemplatesCfg) : String := pyLower (pyStrip tcfg.strategy)

/-- `pick_theme_index(cfg, recipient)`.  `rnd` is the value
`random.randrange(n)` would sample; `fs` is the Variant Rotation State
file.  Returns the chosen index and the state file after the call
(`save_templates_state` writes it only on the round-robin path). -/
def pick_theme_index (tcfg : TemplatesCfg) (recipient : Option String)
    (rnd : Nat) (fs : Option Int) : Nat × Option Int :=
  let themes := get_themes tcfg
  if themes.isEmpty then (0, fs)
  else
    let strategy := strategyNorm tcfg
    let n := themes.length
    if strategy = "random" then (rnd, fs)
    else if strategy = "by_recipient" then
      let base := pyLower (pyStrip (recipient.getD ""))
      if base = "" then (0, fs)
      else (SHA256.digestNat (utf8Bytes base) % n, fs)
    else
      let st := load_templates_state fs
      let idx := (st % (n : Int)).toNat
      (idx, some (((idx : Int) + 1) % (n : Int)))

/-- The value a caller passes as `theme_index_override`: either something
`int()` converts (with the converted value) or something it raises on. -/
inductive OverrideVal where
  | ival : Int → OverrideVal
  | nonInt : OverrideVal
deriving DecidableEq, Repr

/-- `resolve_theme(cfg, recipient, theme_index_override)`: `(None, None)`
when themes are disabled or absent; a valid integer override in
`[0, len(themes))` is used verbatim; otherwise the strategy picks. -/
def resolve_theme (tcfg : TemplatesCfg) (recipient : Option String)
    (ov : Option OverrideVal) (rnd : Nat) (fs : Option Int) :
    (Option Nat × Option Theme) × Option Int :=
  if !templates_enabled tcfg then ((none, none), fs)
  else
    let themes := get_themes tcfg
    if themes.isEmpty then ((none, none), fs)
    else
      let ovIdx : Option Nat :=
        match ov with
        | some (OverrideVal.ival i) =>
          if 0 ≤ i ∧ i < themes.length then some i.toNat else none
        | _ => none
      match ovIdx with
      | some idx => ((some idx, themes[idx]?), fs)
      | none =>
        let p := pick_theme_index tcfg recipient rnd fs
        ((some p.1, themes[p.1]?), p.2)

/-- `k` consecutive worker-free round-robin selections, threading the
persisted Variant Rotation State through `save`/`load` between calls
(exactly what consecutive `pick_theme_index` calls do). -/
def rrRun (tcfg : TemplatesCfg) : Nat → Option Int → List Nat × Option Int
  | 0, fs => ([], fs)
  | k + 1, fs =>
    let p := pick_theme_index tcfg none 0 fs
    let r := rrRun tcfg k p.2
    (p.1 :: r.1, r.2)

/-- The same rotation kept in memory as a plain cursor, never persisted:
the reference sequence the spec's property compares against. -/
def rrRunMem (n : Nat) : Nat → Nat → List Nat
  | 0, _ => []
  | k + 1, c => (c % n) :: rrRunMem n k (c % n + 1)

theorem themes_isEmpty_false (tcfg : TemplatesCfg)
    (hN : 1 ≤ tcfg.themes.length) : tcfg.themes.isEmpty = false := by
  cases h : tcfg.themes
  · rw [h] at hN
    simp at hN
  · rfl

theorem pick_theme_index_rr (tcfg : TemplatesCfg)
    (hstrat : strategyNorm tcfg = "round_robin")
    (hN : 1 ≤ tcfg.themes.length) (recipient : Option String) (rnd : Nat)
    (fs : Option Int) :
    pick_theme_index tcfg recipient rnd fs
      = ((load_templates_state fs % (tcfg.themes.length : Int)).toNat,
         some ((((load_templates_state fs
             % (tcfg.themes.length : Int)).toNat : Int) + 1)
           % (tcfg.themes.length : Int))) := by
  simp [pick_theme_index, get_themes, themes_isEmpty_false tcfg hN, hstrat]

theorem rrRunMem_formula (n : Nat) : ∀ (k c : Nat),
    rrRunMem n k c = (List.range k).map (fun j => (c + j) % n) := by
  intro k
  induction k with
  | zero => intro c; rfl
  | succ k ih =>
    intro c
    rw [rrRunMem, ih, List.range_succ_eq_map]
    simp only [List.map_cons, List.map_map]
    rw [Nat.add_zero]
    congr 1
    refine List.map_congr_left ?_
    intro j _
    simp only [Function.comp_apply]
    rw [Nat.add_assoc, Nat.mod_add_mod]
    congr 1
    omega

theorem rrRunMem_mod (n k c : Nat) : rrRunMem n k (c % n) = rrRunMem n k c := by
  rw [rrRunMem_formula, rrRunMem_formula]
  refine List.map_congr_left ?_
  intro j _
  rw [Nat.mod_add_mod]

theorem rr_cycle_perm (n : Nat) (hn : 0 < n) (c : Nat) :
    List.Perm ((List.range n).map (fun j => (c + j) % n)) (List.range n) := by
  have hnodup : ((List.range n).map (fun j => (c + j) % n)).Nodup := by
    refine List.Nodup.map_on ?_ (List.nodup_range n)
    intro x hx y hy hxy
    rw [List.mem_range] at hx hy
    have h1 : x ≡ y [MOD n] := Nat.ModEq.add_left_cancel' c hxy
    rwa [Nat.ModEq, Nat.mod_eq_of_lt hx, Nat.mod_eq_of_lt hy] at h1
  have hsub : ((List.range n).map (fun j => (c + j) % n)) ⊆ List.range n := by
    intro x hx
    obtain ⟨j, _, hj⟩ := List.mem_map.1 hx
    rw [← hj, List.mem_range]
    exact Nat.mod_lt _ hn
  exact (hnodup.subperm hsub).perm_of_length_le (by simp)

theorem rrRun_eq_mem (tcfg : TemplatesCfg)
    (hstrat : strategyNorm tcfg = "round_robin")
    (hN : 1 ≤ tcfg.themes.length) : ∀ (k : Nat) (fs : Option Int),
    (rrRun tcfg k fs).1
      = rrRunMem tcfg.themes.length k
          ((load_templates_state fs % (tcfg.themes.length : Int)).toNat) := by
  intro k
  induction k with
  | zero => intro fs; rfl
  | succ k ih =>
    intro fs
    rw [rrRun]
    simp only [pick_theme_index_rr tcfg hstrat hN]
    set n := tcfg.themes.length with hn
    set c0 := (load_templates_state fs % (n : Int)).toNat with hc0
    have hc0lt : c0 < n := by
      have h1 : 0 ≤ load_templates_state fs % (n : Int) :=
        Int.emod_nonneg _ (by omega)
      have h2 : load_templates_state fs % (n : Int) < (n : Int) :=
        Int.emod_lt_of_pos _ (by omega)
      omega
    have hnext : ((load_templates_state
          (some (((c0 : Int) + 1) % (n : Int))) % (n : Int)).toNat)
        = (c0 + 1) % n := by
      show ((((c0 : Int) + 1) % (n : Int)) % (n : Int)).toNat = (c0 + 1) % n
      rw [Int.emod_emod_of_dvd _ (dvd_refl _)]
      have : ((c0 : Int) + 1) = ((c0 + 1 : Nat) : Int) := by push_cast; ring
      rw [this, ← Int.natCast_mod]
      exact Int.toNat_natCast _
    rw [ih, hnext, rrRunMem]
    rw [Nat.mod_eq_of_lt hc0lt, rrRunMem_mod]

/-- C7: with `N >= 1` themes and the `round_robin` strategy, one call
returns `cursor mod N` and persists `(returned + 1) mod N`; `N`
consecutive calls (threading the persisted Variant Rotation State through
save and load between calls) return `cursor mod N, cursor mod N + 1, ...`
(each index of `[0, N)` exactly once, in increasing order modulo `N`),
and that sequence coincides with the rotation kept as a plain in-memory
cursor. -/
theorem c7_round_robin_rotation (tcfg : TemplatesCfg)
    (hstrat : strategyNorm tcfg = "round_robin")
    (hN : 1 ≤ tcfg.themes.length)
    (recipient : Option String) (rnd : Nat) (fs : Option Int) :
    pick_theme_index tcfg recipient rnd fs
      = ((load_templates_state fs % (tcfg.themes.length : Int)).toNat,
         some ((((load_templates_state fs
             % (tcfg.themes.length : Int)).toNat : Int) + 1)
           % (tcfg.themes.length : Int))) ∧
    (rrRun tcfg tcfg.themes.length fs).1
      = (List.range tcfg.themes.length).map
          (fun j => ((load_templates_state fs
              % (tcfg.themes.length : Int)).toNat + j) % tcfg.themes.length) ∧
    List.Perm (rrRun tcfg tcfg.themes.length fs).1
      (List.range tcfg.themes.length) ∧
    (rrRun tcfg tcfg.themes.length fs).1
      = rrRunMem tcfg.themes.length tcfg.themes.length
          ((load_templates_state fs % (tcfg.themes.length : Int)).toNat) := by
  refine ⟨pick_theme_index_rr tcfg hstrat hN recipient rnd fs, ?_, ?_, ?_⟩
  · rw [rrRun_eq_mem tcfg hstrat hN, rrRunMem_formula]
  · rw [rrRun_eq_mem tcfg hstrat hN, rrRunMem_formula]
    exact rr_cycle_perm tcfg.themes.length (by omega) _
  · exact rrRun_eq_mem tcfg hstrat hN tcfg.themes.length fs

theorem pick_theme_index_by_recipient (tcfg : TemplatesCfg)
    (hstrat : strategyNorm tcfg = "by_recipient")
    (hN : 1 ≤ tcfg.themes.length) (r : String) (rnd : Nat) (fs : Option Int) :
    pick_theme_index tcfg (some r) rnd fs
      = (if pyLower (pyStrip r) = "" then 0
         else SHA256.digestNat (utf8Bytes (pyLower (pyStrip r)))
           % tcfg.themes.length, fs) := by
  simp [pick_theme_index, get_themes, themes_isEmpty_false tcfg hN, hstrat]
  split <;> rfl

/-- C8: under the `by_recipient` strategy, two recipient strings equal
after trimming and lower-casing get the same index, the index is in
`[0, N)`, the persisted Variant Rotation State is neither consulted (the
result does not depend on it) nor written (it is returned unchanged), and
for a non-empty normalized address the index is the SHA-256 digest of
that address read as a number, reduced modulo `N`. -/
theorem c8_by_recipient_deterministic (tcfg : TemplatesCfg)
    (hstrat : strategyNorm tcfg = "by_recipient")
    (hN : 1 ≤ tcfg.themes.length) (r1 r2 : String)
    (hr : pyLower (pyStrip r1) = pyLower (pyStrip r2))
    (rnd1 rnd2 : Nat) (fs1 fs2 : Option Int) :
    (pick_theme_index tcfg (some r1) rnd1 fs1).1
        = (pick_theme_index tcfg (some r2) rnd2 fs2).1 ∧
    (pick_theme_index tcfg (some r1) rnd1 fs1).1 < tcfg.themes.length ∧
    (pick_theme_index tcfg (some r1) rnd1 fs1).2 = fs1 ∧
    (pyLower (pyStrip r1) ≠ "" →
      (pick_theme_index tcfg (some r1) rnd1 fs1).1
        = SHA256.digestNat (utf8Bytes (pyLower (pyStrip r1)))
            % tcfg.themes.length) := by
  refine ⟨?_, ?_, ?_, ?_⟩
  · rw [pick_theme_index_by_recipient tcfg hstrat hN r1 rnd1 fs1,
      pick_theme_index_by_recipient tcfg hstrat hN r2 rnd2 fs2, hr]
  · rw [pick_theme_index_by_recipient tcfg hstrat hN r1 rnd1 fs1]
    by_cases hb : pyLower (pyStrip r1) = ""
    · simp only [if_pos hb]
      omega
    · simp only [if_neg hb]
      exact Nat.mod_lt _ (by omega)
  · rw [pick_theme_index_by_recipient tcfg hstrat hN r1 rnd1 fs1]
  · intro hne
    rw [pick_theme_index_by_recipient tcfg hstrat hN r1 rnd1 fs1]
    simp only [if_neg hne]

/-- Concrete instantiation of `c8_by_recipient_deterministic`:
`" B@X.com"` and `"b@x.com "` normalize alike, so they select the same
of 3 themes regardless of the rotation state. -/
theorem c8_by_recipient_deterministic_witness :
    strategyNorm ⟨true, "by_recipient", [⟨"t0"⟩, ⟨"t1"⟩, ⟨"t2"⟩]⟩
      = "by_recipient" ∧
    pyLower (pyStrip " B@X.com") = pyLower (pyStrip "b@x.com ") ∧
    ((pick_theme_index ⟨true, "by_recipient", [⟨"t0"⟩, ⟨"t1"⟩, ⟨"t2"⟩]⟩
        (some " B@X.com") 0 (some 7)).1
      = (pick_theme_index ⟨true, "by_recipient", [⟨"t0"⟩, ⟨"t1"⟩, ⟨"t2"⟩]⟩
          (some "b@x.com ") 5 none).1 ∧
     (pick_theme_index ⟨true, "by_recipient", [⟨"t0"⟩, ⟨"t1"⟩, ⟨"t2"⟩]⟩
        (some " B@X.com") 0 (some 7)).1 < 3 ∧
     (pick_theme_index ⟨true, "by_recipient", [⟨"t0"⟩, ⟨"t1"⟩, ⟨"t2"⟩]⟩
        (some " B@X.com") 0 (some 7)).2 = some 7 ∧
     (pyLower (pyStrip " B@X.com") ≠ "" →
       (pick_theme_index ⟨true, "by_recipient", [⟨"t0"⟩, ⟨"t1"⟩, ⟨"t2"⟩]⟩
          (some " B@X.com") 0 (some 7)).1
         = SHA256.digestNat (utf8Bytes (pyLower (pyStrip " B@X.com")))
             % (⟨true, "by_recipient",
                 [⟨"t0"⟩, ⟨"t1"⟩, ⟨"t2"⟩]⟩ : TemplatesCfg).themes.length)) :=
  ⟨by decide, by decide,
   c8_by_recipient_deterministic
     ⟨true, "by_recipient", [⟨"t0"⟩, ⟨"t1"⟩, ⟨"t2"⟩]⟩
     (by decide) (by decide) " B@X.com" "b@x.com " (by decide)
     0 5 (some 7) none⟩

/-- C9: a supplied integer override in `[0, N)` is used verbatim — the
returned index and theme come straight from it, no strategy runs, and the
Variant Rotation State file is returned untouched, whatever the recipient
and random oracle are. -/
theorem c9_override_in_range_verbatim (tcfg : TemplatesCfg)
    (hen : tcfg.enabled = true) (hN : 1 ≤ tcfg.themes.length)
    (i : Int) (h0 : 0 ≤ i) (hi : i < (tcfg.themes.length : Int))
    (recipient : Option String) (rnd : Nat) (fs : Option Int) :
    resolve_theme tcfg recipient (some (OverrideVal.ival i)) rnd fs
      = ((some i.toNat, tcfg.themes[i.toNat]?), fs) ∧
    ∃ t, tcfg.themes[i.toNat]? = some t := by
  constructor
  · simp [resolve_theme, templates_enabled, hen, get_themes,
      themes_isEmpty_false tcfg hN, h0, hi]
  · have hlt : i.toNat < tcfg.themes.length := by omega
    exact ⟨tcfg.themes[i.toNat], List.getElem?_eq_getElem hlt⟩

/-- Concrete instantiation of `c9_override_in_range_verbatim`: override 1
of 3 themes is returned verbatim with an unchanged state file. -/
theorem c9_override_in_range_verbatim_witness :
    (resolve_theme ⟨true, "round_robin", [⟨"t0"⟩, ⟨"t1"⟩, ⟨"t2"⟩]⟩
        (some "a@x.com") (some (OverrideVal.ival 1)) 0 (some 2)
      = ((some 1, [(⟨"t0"⟩ : Theme), ⟨"t1"⟩, ⟨"t2"⟩][(1 : Int).toNat]?),
         some 2)) ∧
    ∃ t, [(⟨"t0"⟩ : Theme), ⟨"t1"⟩, ⟨"t2"⟩][(1 : Int).toNat]? = some t :=
  c9_override_in_range_verbatim
    ⟨true, "round_robin", [⟨"t0"⟩, ⟨"t1"⟩, ⟨"t2"⟩]⟩
    rfl (by decide) 1 (by decide) (by decide) (some "a@x.com") 0 (some 2)

theorem resolve_theme_strategy_path (tcfg : TemplatesCfg)
    (hen : tcfg.enabled = true) (hN : 1 ≤ tcfg.themes.length)
    (recipient : Option String) (rnd : Nat) (fs : Option Int) :
    resolve_theme tcfg recipient none rnd fs
      = ((some (pick_theme_index tcfg recipient rnd fs).1,
          tcfg.themes[(pick_theme_index tcfg recipient rnd fs).1]?),
         (pick_theme_index tcfg recipient rnd fs).2) := by
  simp [resolve_theme, templates_enabled, hen, get_themes,
    themes_isEmpty_false tcfg hN]

/-- C10: a supplied override that `int()` cannot convert, or whose value
lies outside `[0, N)`, is silently ignored: the call behaves exactly like
a call without an override, so the configured strategy runs.  Under
`round_robin` that call returns the current cursor modulo `N` (generally
different from the stale override) and persists the advanced cursor, so a
replayed job carrying an out-of-range `variant_index` can render with a
different variant than the one captured at enqueue time. -/
theorem c10_invalid_override_ignored (tcfg : TemplatesCfg)
    (hen : tcfg.enabled = true) (hN : 1 ≤ tcfg.themes.length)
    (ov : OverrideVal)
    (hbad : ov = OverrideVal.nonInt ∨
      ∃ i, ov = OverrideVal.ival i ∧
        (i < 0 ∨ (tcfg.themes.length : Int) ≤ i))
    (recipient : Option String) (rnd : Nat) (fs : Option Int) :
    resolve_theme tcfg recipient (some ov) rnd fs
      = resolve_theme tcfg recipient none rnd fs ∧
    (strategyNorm tcfg = "round_robin" →
      resolve_theme tcfg recipient (some ov) rnd fs
        = ((some ((load_templates_state fs
              % (tcfg.themes.length : Int)).toNat),
            tcfg.themes[(load_templates_state fs
              % (tcfg.themes.length : Int)).toNat]?),
           some ((((load_templates_state fs
               % (tcfg.themes.length : Int)).toNat : Int) + 1)
             % (tcfg.themes.length : Int)))) := by
  have heq : resolve_theme tcfg recipient (some ov) rnd fs
      = resolve_theme tcfg recipient none rnd fs := by
    rcases hbad with h | ⟨i, h, hle⟩
    · subst h
      simp [resolve_theme]
    · subst h
      have hneg : ¬(0 ≤ i ∧ i < (tcfg.themes.length : Int)) := by omega
      simp [resolve_theme, get_themes, hneg]
  refine ⟨heq, fun hstrat => ?_⟩
  rw [heq, resolve_theme_strategy_path tcfg hen hN recipient rnd fs,
    pick_theme_index_rr tcfg hstrat hN recipient rnd fs]

/-- Concrete instantiation of `c10_invalid_override_ignored`: a stale
override of 7 against 3 themes is ignored; round-robin returns index 0
(not 7) from cursor 0 and persists cursor 1. -/
theorem c10_invalid_override_ignored_witness :
    (OverrideVal.ival 7 = OverrideVal.nonInt ∨
      ∃ i, OverrideVal.ival 7 = OverrideVal.ival i ∧
        (i < 0 ∨ ((⟨true, "round_robin",
           [⟨"t0"⟩, ⟨"t1"⟩, ⟨"t2"⟩]⟩ : TemplatesCfg).themes.length : Int) ≤ i)) ∧
    resolve_theme ⟨true, "round_robin", [⟨"t0"⟩, ⟨"t1"⟩, ⟨"t2"⟩]⟩
        (some "a@x.com") (some (OverrideVal.ival 7)) 0 (some 0)
      = resolve_theme ⟨true, "round_robin", [⟨"t0"⟩, ⟨"t1"⟩, ⟨"t2"⟩]⟩
          (some "a@x.com") none 0 (some 0) ∧
    resolve_theme ⟨true, "round_robin", [⟨"t0"⟩, ⟨"t1"⟩, ⟨"t2"⟩]⟩
        (some "a@x.com") (some (OverrideVal.ival 7)) 0 (some 0)
      = ((some 0, some ⟨"t0"⟩), some 1) ∧
    (0 : Nat) ≠ 7 := by
  have h := c10_invalid_override_ignored
    ⟨true, "round_robin", [⟨"t0"⟩, ⟨"t1"⟩, ⟨"t2"⟩]⟩
    rfl (by decide) (OverrideVal.ival 7)
    (Or.inr ⟨7, rfl, Or.inr (by decide)⟩)
    (some "a@x.com") 0 (some 0)
  refine ⟨Or.inr ⟨7, rfl, Or.inr (by decide)⟩, h.1, ?_, by decide⟩
  rw [h.2 (by decide)]
  rfl

/-- Concrete instantiation of `c7_round_robin_rotation`: cursor 5 over 3
themes returns 2 and persists 0; three consecutive calls return
`[2, 0, 1]`, a permutation of `0..2`. -/
theorem c7_round_robin_rotation_witness :
    strategyNorm ⟨true, "round_robin", [⟨"t0"⟩, ⟨"t1"⟩, ⟨"t2"⟩]⟩
      = "round_robin" ∧
    (pick_theme_index ⟨true, "round_robin", [⟨"t0"⟩, ⟨"t1"⟩, ⟨"t2"⟩]⟩
        none 0 (some 5)
      = ((load_templates_state (some 5)
           % ((⟨true, "round_robin",
               [⟨"t0"⟩, ⟨"t1"⟩, ⟨"t2"⟩]⟩ : TemplatesCfg).themes.length : Int)).toNat,
         some ((((load_templates_state (some 5)
             % ((⟨true, "round_robin",
                 [⟨"t0"⟩, ⟨"t1"⟩, ⟨"t2"⟩]⟩ : TemplatesCfg).themes.length : Int)).toNat : Int) + 1)
           % ((⟨true, "round_robin",
               [⟨"t0"⟩, ⟨"t1"⟩, ⟨"t2"⟩]⟩ : TemplatesCfg).themes.length : Int))) ∧
     List.Perm (rrRun ⟨true, "round_robin", [⟨"t0"⟩, ⟨"t1"⟩, ⟨"t2"⟩]⟩ 3
        (some 5)).1 (List.range 3) ∧
     (rrRun ⟨true, "round_robin", [⟨"t0"⟩, ⟨"t1"⟩, ⟨"t2"⟩]⟩ 3 (some 5)).1
       = [2, 0, 1]) := by
  have h := c7_round_robin_rotation
    ⟨true, "round_robin", [⟨"t0"⟩, ⟨"t1"⟩, ⟨"t2"⟩]⟩
    (by decide) (by decide) none 0 (some 5)
  exact ⟨by decide, h.1, h.2.2.1, by decide⟩
